import Mathlib

/-!
Verification of the typing-tutor core: the session scorer, the per-key
mastery tracker, the session-lifecycle state machine of the typing canvas,
and the local fallback of the adaptive-lesson service.

JavaScript numeric operations are embedded over `ℚ`:
`x.toFixed(2)` followed by `parseFloat` is `round2` (round half toward +∞
at two decimals, which is how `toFixed` resolves ties), and `Math.round`
is `jsRound` (round half toward +∞).  Strings typed by the user and
target passages are `List Char`; timestamps are `ℤ` (milliseconds).
-/

namespace TypingTutor

/-- Difficulty tiers, from `types.ts` (`DifficultyLevel`). -/
inductive DifficultyLevel where
  | PEMULA
  | MENENGAH
  | MAHIR
deriving DecidableEq, Repr

/-- Day/night theme mode, from `types.ts` (`AppMode`). -/
inductive AppMode where
  | SIANG
  | MALAM
deriving DecidableEq, Repr

/-- The per-session result record, from `types.ts` (`TypingResult`). -/
structure TypingResult where
  wpm : ℤ
  errorRate : ℚ
  accuracy : ℚ
  actualTypedText : List Char
  timestamp : ℤ
deriving DecidableEq, Repr

/-- A practice lesson, from `types.ts` (`LessonData`). -/
structure LessonData where
  tutorMessage : String
  lessonText : List Char
  criticalKeys : List String
  nextLevel : DifficultyLevel
deriving DecidableEq, Repr

/-- `parseFloat(x.toFixed(2))`: rounding to two decimals, ties toward the
larger candidate, as `Number.prototype.toFixed` specifies. -/
def round2 (q : ℚ) : ℚ := ((⌊q * 100 + 1 / 2⌋ : ℤ) : ℚ) / 100

/-- `Math.round`: round half toward positive infinity. -/
def jsRound (q : ℚ) : ℤ := ⌊q + 1 / 2⌋

/-- The error-counting loop of `finishSession` (`TypingCanvas.tsx` lines
71-74): one pass over the indices of the target, incrementing on each
position where the typed character differs (an out-of-range read of the
typed text is `none`, as `finalInput[i]` is `undefined` there). -/
def errorCount (targetText finalInput : List Char) : ℕ :=
  (List.range targetText.length).foldl
    (fun errors i => if finalInput[i]? ≠ targetText[i]? then errors + 1 else errors) 0

/-- `finishSession` (`TypingCanvas.tsx` lines 61-85).  `startTime` is the
React state value captured by the handler: `none` models `null`, and the
JavaScript expression `startTime || endTime` also falls back to `endTime`
when the stored number is `0` (falsy). -/
def finishSession (targetText : List Char) (startTime : Option ℤ) (endTime : ℤ)
    (finalInput : List Char) : TypingResult :=
  let st : ℤ :=
    match startTime with
    | none => endTime
    | some s => if s = 0 then endTime else s
  let durationMinutes : ℚ := (((endTime - st : ℤ) : ℚ) / 1000) / 60
  let words : ℚ := (finalInput.length : ℚ) / 5
  let wpm : ℤ := jsRound (if 0 < durationMinutes then words / durationMinutes else 0)
  let errors : ℕ := errorCount targetText finalInput
  let errorRate : ℚ := ((errors : ℚ) / (targetText.length : ℚ)) * 100
  let accuracy : ℚ := 100 - errorRate
  { wpm := wpm
    errorRate := round2 errorRate
    accuracy := round2 accuracy
    actualTypedText := finalInput
    timestamp := endTime }

/-- A mastery map: each key (a lowercase character) either has a stored
score or is absent, as in the persisted JavaScript object `keyMastery`. -/
abbrev Mastery := Char → Option ℤ

/-- The regex test `/[a-z0-9]/.test(char)` on a single character. -/
def isMasteryChar (c : Char) : Bool :=
  (('a' ≤ c) && (c ≤ 'z')) || (('0' ≤ c) && (c ≤ '9'))

/-- One iteration of the `updateMastery` loop body (lines 140-151 of the
application component): lowercase the target character, skip it unless it
is a lowercase letter or digit, otherwise bump its score by `+2` clamped
at `100` on a match and by `-5` clamped at `0` on a mismatch; a key absent
from the map reads as score `0` (`newMastery[char] || 0`). -/
def masteryStep (m : Mastery) (tc yc : Char) : Mastery :=
  let char := tc.toLower
  if isMasteryChar char then
    let currentScore : ℤ := (m char).getD 0
    if tc = yc then
      fun k => if k = char then some (min 100 (currentScore + 2)) else m k
    else
      fun k => if k = char then some (max 0 (currentScore - 5)) else m k
  else m

/-- `updateMastery` (application component lines 135-154): a loop over the
indices `0 ≤ i < min (length target) (length typed)`, applying the step to
the running copy of the map. -/
def updateMastery (keyMastery : Mastery) (target typed : List Char) : Mastery :=
  (List.range (min target.length typed.length)).foldl
    (fun m i => masteryStep m (target.getD i ' ') (typed.getD i ' ')) keyMastery

/-- A failure of the lesson-generation call: a transport error, a response
with no text, or a JSON parse error — every path that lands in the
`catch` block of `generateAdaptiveLesson`. -/
inductive FetchFailure where
  | transport
  | emptyText
  | parseError
deriving DecidableEq, Repr

/-- `generateAdaptiveLesson` (`geminiService.ts` lines 57-116), with the
remote call abstracted into its outcome: on success the parsed lesson is
returned as-is; on any failure the hardcoded local fallback is built from
the request parameters (lines 109-114). -/
def generateAdaptiveLesson (currentLevel : DifficultyLevel) (mode : AppMode)
    (lastResult : TypingResult) (targetText : List Char)
    (response : Except FetchFailure LessonData) : LessonData :=
  match response with
  | Except.ok lesson => lesson
  | Except.error _ =>
    { tutorMessage := "Maaf, saya mengalami gangguan koneksi sebentar. Mari kita ulang latihan pola sebelumnya."
      lessonText := targetText
      criticalKeys := []
      nextLevel := currentLevel }

/-- The typing-canvas component state (`TypingCanvas.tsx` lines 14-16):
the hidden input's value, the recorded start timestamp (`null` as `none`),
and the finished flag. -/
structure CanvasState where
  input : List Char
  startTime : Option ℤ
  isFinished : Bool
deriving DecidableEq, Repr

/-- What one call of `handleInputChange` produces: the next component
state, the `SessionResult` passed to `onComplete` (if any), and whether
`onTypingStart` was signalled. -/
structure StepOut where
  state : CanvasState
  emitted : Option TypingResult
  started : Bool
deriving DecidableEq, Repr

/-- JavaScript truthiness test `!startTime`: `null` and `0` are falsy. -/
def jsFalsy : Option ℤ → Bool
  | none => true
  | some v => v == 0

/-- `handleInputChange` (`TypingCanvas.tsx` lines 33-59): ignore input when
finished; start the timer on the first character (`!startTime && val.length
=== 1`); store the new value; finish when the value reaches the target
length.  `finishSession` reads the `startTime` React state captured at
render time, so it sees the value from before this event even when the
same event just set it. -/
def handleInputChange (targetText : List Char) (now : ℤ) (s : CanvasState)
    (val : List Char) : StepOut :=
  if s.isFinished then ⟨s, none, false⟩
  else
    let fires := jsFalsy s.startTime && val.length == 1
    let newStart := if fires then some now else s.startTime
    if targetText.length ≤ val.length then
      ⟨⟨val, newStart, true⟩, some (finishSession targetText s.startTime now val), fires⟩
    else
      ⟨⟨val, newStart, false⟩, none, fires⟩

/-- `handleReset` (`TypingCanvas.tsx` lines 87-96): clear the input and the
start timestamp; the finished flag is not touched and nothing is emitted. -/
def handleReset (s : CanvasState) : CanvasState :=
  { s with input := [], startTime := none }

/-- The canvas state installed by the lesson-change effect
(`TypingCanvas.tsx` lines 27-31): empty input, no start time, not
finished. -/
def freshCanvas : CanvasState := ⟨[], none, false⟩

/-- The application state the session events act on: the canvas, the
session history, the mastery map, and the current lesson text. -/
structure AppState where
  canvas : CanvasState
  history : List TypingResult
  keyMastery : Mastery
  lessonText : List Char

/-- The session-level events: an input change carrying the new input value
and the current clock, the manual reset button, and the arrival of a new
lesson. -/
inductive Ev where
  | input (val : List Char) (now : ℤ)
  | reset
  | load (newText : List Char)

/-- One application step.  An input event runs `handleInputChange`; when a
result is emitted, `handleSessionComplete` (application component lines
156-184) appends it to the history and applies `updateMastery` to the
lesson text and the typed text.  A reset runs `handleReset` and touches
nothing else.  Loading a new lesson replaces the lesson text and resets
the canvas (the asynchronous `setLesson` after the collaborator call). -/
def stepApp (st : AppState) : Ev → AppState × Option TypingResult
  | Ev.input val now =>
    let out := handleInputChange st.lessonText now st.canvas val
    match out.emitted with
    | some r =>
      ({ canvas := out.state
         history := st.history ++ [r]
         keyMastery := updateMastery st.keyMastery st.lessonText r.actualTypedText
         lessonText := st.lessonText }, some r)
    | none => ({ st with canvas := out.state }, none)
  | Ev.reset => ({ st with canvas := handleReset st.canvas }, none)
  | Ev.load t => ({ st with canvas := freshCanvas, lessonText := t }, none)

/-- Run a sequence of events, collecting every emitted `SessionResult` in
order. -/
def runApp (st : AppState) : List Ev → AppState × List TypingResult
  | [] => (st, [])
  | e :: es =>
    let p := stepApp st e
    let q := runApp p.1 es
    (q.1, p.2.toList ++ q.2)

/-! ### Helper lemmas -/

/-- A counting fold is the length of the corresponding filter. -/
theorem list_foldl_count {α : Type} (p : α → Prop) [DecidablePred p] (l : List α) :
    ∀ n : ℕ, l.foldl (fun acc a => if p a then acc + 1 else acc) n
      = n + (l.filter (fun a => decide (p a))).length := by
  induction l with
  | nil => simp
  | cons a l ih =>
    intro n
    simp only [List.foldl_cons, List.filter_cons]
    by_cases h : p a <;> simp [h, ih] <;> omega

/-- Rounding at two decimals moves a rational by at most `1/200`. -/
theorem abs_round2_sub_le (q : ℚ) : |round2 q - q| ≤ 1 / 200 := by
  have h1 : ((⌊q * 100 + 1 / 2⌋ : ℤ) : ℚ) ≤ q * 100 + 1 / 2 := Int.floor_le _
  have h2 : q * 100 + 1 / 2 - 1 < ((⌊q * 100 + 1 / 2⌋ : ℤ) : ℚ) := Int.sub_one_lt_floor _
  rw [round2, abs_le]
  exact ⟨by linarith, by linarith⟩

/-- A fold over `range (min (length t) (length y))` reading both lists at
the index equals a fold over `zip t y`. -/
theorem foldl_range_min_getD {α β : Type} (f : β → α → α → β) (d : α) :
    ∀ (t y : List α) (b : β),
      (List.range (min t.length y.length)).foldl
          (fun acc i => f acc (t.getD i d) (y.getD i d)) b
        = (t.zip y).foldl (fun acc p => f acc p.1 p.2) b
  | [], y, b => by simp
  | a :: t, [], b => by simp
  | a :: t, c :: y, b => by
    rw [List.length_cons, List.length_cons, Nat.succ_min_succ, List.range_succ_eq_map,
      List.foldl_cons, List.foldl_map]
    simp only [List.getD_cons_zero, List.getD_cons_succ]
    rw [List.zip_cons_cons, List.foldl_cons]
    exact foldl_range_min_getD f d t y (f b a c)

/-! ### Claims about the scorer -/

/-- C1: for a non-empty target and a typed text at least as long, the
scorer's error count is the number of positions `i < length target` where
the typed character differs from the target character, the stored
`errorRate` is `round2 ((errorCount / length target) * 100)`, characters
of the typed text beyond `length target` do not affect the error count,
and the typed text is stored verbatim in the emitted result. -/
theorem scorer_errors_spec (target typed : List Char) (startTime : Option ℤ)
    (endTime : ℤ) (hne : target ≠ []) (hlen : target.length ≤ typed.length) :
    errorCount target typed
        = ((List.range target.length).filter
            (fun i => typed[i]? != target[i]?)).length
      ∧ (finishSession target startTime endTime typed).errorRate
          = round2 (((errorCount target typed : ℚ) / (target.length : ℚ)) * 100)
      ∧ (∀ extra : List Char, errorCount target (typed ++ extra) = errorCount target typed)
      ∧ (finishSession target startTime endTime typed).actualTypedText = typed := by
  refine ⟨?_, rfl, ?_, rfl⟩
  · rw [errorCount, list_foldl_count, Nat.zero_add]
    congr 1
    apply List.filter_congr
    intro i _
    by_cases h : typed[i]? = target[i]? <;> simp [h, bne]
  · intro extra
    unfold errorCount
    apply List.foldl_ext
    intro b i hi
    rw [List.getElem?_append_left (lt_of_lt_of_le (List.mem_range.mp hi) hlen)]

/-- C1 witness: target `"ab"`, typed `"acd"`, with both hypotheses checked
at this input. -/
theorem scorer_errors_witness :
    (['a', 'b'] : List Char) ≠ []
    ∧ (['a', 'b'] : List Char).length ≤ (['a', 'c', 'd'] : List Char).length
    ∧ (errorCount ['a', 'b'] ['a', 'c', 'd']
          = ((List.range (['a', 'b'] : List Char).length).filter
              (fun i => (['a', 'c', 'd'] : List Char)[i]? != (['a', 'b'] : List Char)[i]?)).length
        ∧ (finishSession ['a', 'b'] (some 5) 10 ['a', 'c', 'd']).errorRate
            = round2 (((errorCount ['a', 'b'] ['a', 'c', 'd'] : ℚ)
                / ((['a', 'b'] : List Char).length : ℚ)) * 100)
        ∧ (∀ extra : List Char,
            errorCount ['a', 'b'] (['a', 'c', 'd'] ++ extra) = errorCount ['a', 'b'] ['a', 'c', 'd'])
        ∧ (finishSession ['a', 'b'] (some 5) 10 ['a', 'c', 'd']).actualTypedText = ['a', 'c', 'd']) :=
  ⟨by decide, by decide, scorer_errors_spec ['a', 'b'] ['a', 'c', 'd'] (some 5) 10 (by decide) (by decide)⟩

/-- C2: for a non-empty target and a typed text at least as long, the
`accuracy` and `errorRate` stored in the emitted result sum to `100` up to
the tolerance of rounding each to two decimals (each rounding moves its
value by at most `1/200`, so the sum is within `1/100` of `100`; the bound
is attained, e.g. at a 32-character target with one error, where the two
rounded values sum to `100.01`). -/
theorem accuracy_plus_errorRate (target typed : List Char) (startTime : Option ℤ)
    (endTime : ℤ) (hne : target ≠ []) (hlen : target.length ≤ typed.length) :
    |(finishSession target startTime endTime typed).accuracy
      + (finishSession target startTime endTime typed).errorRate - 100| ≤ 1 / 100 := by
  show |round2 (100 - ((errorCount target typed : ℚ) / (target.length : ℚ)) * 100)
        + round2 (((errorCount target typed : ℚ) / (target.length : ℚ)) * 100) - 100| ≤ 1 / 100
  set x : ℚ := ((errorCount target typed : ℚ) / (target.length : ℚ)) * 100 with hx
  have h1 := abs_round2_sub_le x
  have h2 := abs_round2_sub_le (100 - x)
  rw [abs_le] at h1 h2 ⊢
  exact ⟨by linarith, by linarith⟩

/-- C2 witness: target `"ab"`, typed `"ac"`. -/
theorem accuracy_plus_errorRate_witness :
    (['a', 'b'] : List Char) ≠ []
    ∧ (['a', 'b'] : List Char).length ≤ (['a', 'c'] : List Char).length
    ∧ |(finishSession ['a', 'b'] (some 5) 10 ['a', 'c']).accuracy
        + (finishSession ['a', 'b'] (some 5) 10 ['a', 'c']).errorRate - 100| ≤ 1 / 100 :=
  ⟨by decide, by decide,
    accuracy_plus_errorRate ['a', 'b'] ['a', 'c'] (some 5) 10 (by decide) (by decide)⟩

/-- C3: with a recorded (truthy) start timestamp, the emitted
words-per-minute is `round ((length typed / 5) / (elapsed / 1000 / 60))`
when the elapsed minutes are strictly positive and `0` otherwise; in
particular zero elapsed milliseconds gives `0` rather than a division
error. -/
theorem wpm_spec (target typed : List Char) (s e : ℤ) (hs : 0 < s) (hse : s ≤ e) :
    ((finishSession target (some s) e typed).wpm
        = if 0 < (((e - s : ℤ) : ℚ) / 1000) / 60
          then jsRound (((typed.length : ℚ) / 5) / ((((e - s : ℤ) : ℚ) / 1000) / 60))
          else 0)
    ∧ (e = s → (finishSession target (some s) e typed).wpm = 0) := by
  have hs0 : s ≠ 0 := ne_of_gt hs
  have hwpm : (finishSession target (some s) e typed).wpm
      = jsRound (if 0 < (((e - (if s = 0 then e else s) : ℤ) : ℚ) / 1000) / 60
          then ((typed.length : ℚ) / 5)
            / ((((e - (if s = 0 then e else s) : ℤ) : ℚ) / 1000) / 60)
          else 0) := rfl
  rw [if_neg hs0] at hwpm
  constructor
  · rw [hwpm]
    split_ifs with h
    · rfl
    · show (⌊(0 : ℚ) + 1 / 2⌋ : ℤ) = 0
      norm_num
  · intro he
    subst he
    rw [hwpm]
    norm_num [jsRound]

/-- C3 witness: the spec scenario, four characters typed in one minute. -/
theorem wpm_spec_witness :
    (0 : ℤ) < 1000 ∧ (1000 : ℤ) ≤ 61000
    ∧ (((finishSession "ffjj".toList (some 1000) 61000 "ffjk".toList).wpm
          = if 0 < ((((61000 - 1000 : ℤ) : ℚ) / 1000) / 60)
            then jsRound ((("ffjk".toList.length : ℚ) / 5)
              / ((((61000 - 1000 : ℤ) : ℚ) / 1000) / 60))
            else 0)
        ∧ ((61000 : ℤ) = 1000
            → (finishSession "ffjj".toList (some 1000) 61000 "ffjk".toList).wpm = 0)) :=
  ⟨by decide, by decide, wpm_spec "ffjj".toList "ffjk".toList 1000 61000 (by decide) (by decide)⟩

/-! ### Claims about the mastery tracker -/

/-- C4: `updateMastery` visits exactly the positions of
`zip target typed` — the indices `i < min (length target) (length typed)`
in order — and at each one lowercases the target character, leaves the map
alone unless that character is an ASCII letter or digit, and otherwise
clamps the running score up by `2` (cap `100`) on a match and down by `5`
(floor `0`) on a mismatch, an absent key reading as `0`. -/
theorem updateMastery_visits (m : Mastery) (target typed : List Char) :
    updateMastery m target typed
        = (target.zip typed).foldl (fun acc p => masteryStep acc p.1 p.2) m
      ∧ ∀ (acc : Mastery) (tc yc : Char),
          masteryStep acc tc yc
            = if isMasteryChar tc.toLower then
                (if tc = yc then
                  fun k => if k = tc.toLower
                    then some (min 100 ((acc tc.toLower).getD 0 + 2)) else acc k
                else
                  fun k => if k = tc.toLower
                    then some (max 0 ((acc tc.toLower).getD 0 - 5)) else acc k)
              else acc :=
  ⟨foldl_range_min_getD masteryStep ' ' target typed m, fun _ _ _ => rfl⟩

/-- Pointwise description of one mastery update step. -/
theorem masteryStep_apply (m : Mastery) (tc yc k : Char) :
    masteryStep m tc yc k
      = if isMasteryChar tc.toLower ∧ k = tc.toLower then
          (if tc = yc then some (min 100 ((m tc.toLower).getD 0 + 2))
           else some (max 0 ((m tc.toLower).getD 0 - 5)))
        else m k := by
  unfold masteryStep
  by_cases h2 : tc = yc
  · subst h2
    by_cases h1 : isMasteryChar tc.toLower <;> by_cases h3 : k = tc.toLower
      <;> simp [h1, h3]
  · by_cases h1 : isMasteryChar tc.toLower <;> by_cases h3 : k = tc.toLower
      <;> simp [h1, h2, h3]

/-- Every stored score of the map lies in `[0, 100]`. -/
def MasteryInRange (m : Mastery) : Prop :=
  ∀ c v, m c = some v → 0 ≤ v ∧ v ≤ 100

/-- One mastery step keeps every stored score in `[0, 100]`. -/
theorem masteryStep_inRange (m : Mastery) (tc yc : Char) (h : MasteryInRange m) :
    MasteryInRange (masteryStep m tc yc) := by
  intro c v hv
  have hcur : 0 ≤ (m tc.toLower).getD 0 ∧ (m tc.toLower).getD 0 ≤ 100 := by
    cases hm : m tc.toLower with
    | none => simp
    | some w => simpa using h _ w hm
  rw [masteryStep_apply] at hv
  split_ifs at hv with h1 h2
  · obtain rfl := Option.some_inj.mp hv
    omega
  · obtain rfl := Option.some_inj.mp hv
    omega
  · exact h _ _ hv

/-- C5: starting from a map whose scores all lie in `[0, 100]`, every
score produced by `updateMastery` lies in `[0, 100]`; in particular a
correct repeat at score `99` is clamped to `100`, and an incorrect hit at
score `3` is clamped to `0`. -/
theorem updateMastery_clamped (m : Mastery) (target typed : List Char)
    (h : MasteryInRange m) :
    MasteryInRange (updateMastery m target typed)
    ∧ updateMastery (fun k => if k = 'f' then some 99 else none) ['f'] ['f'] 'f' = some 100
    ∧ updateMastery (fun k => if k = 'f' then some 3 else none) ['f'] ['j'] 'f' = some 0 := by
  refine ⟨?_, by decide, by decide⟩
  unfold updateMastery
  generalize List.range (min target.length typed.length) = l
  induction l generalizing m with
  | nil => exact h
  | cons i l ih => exact ih _ (masteryStep_inRange _ _ _ h)

/-- C5 witness: the empty map trivially satisfies the range hypothesis. -/
theorem updateMastery_clamped_witness :
    MasteryInRange (fun _ => none)
    ∧ (MasteryInRange (updateMastery (fun _ => none) ['a'] ['a'])
      ∧ updateMastery (fun k => if k = 'f' then some 99 else none) ['f'] ['f'] 'f' = some 100
      ∧ updateMastery (fun k => if k = 'f' then some 3 else none) ['f'] ['j'] 'f' = some 0) := by
  have hm : MasteryInRange (fun _ => none) := fun c v hv => nomatch hv
  exact ⟨hm, updateMastery_clamped (fun _ => none) ['a'] ['a'] hm⟩

/-- C10: `updateMastery` is a pure function of its map, and any key whose
character does not occur — lowercased, as an ASCII letter or digit — among
the first `min (length target) (length typed)` characters of the target
keeps exactly its prior binding (present or absent) in the returned
map. -/
theorem updateMastery_frame (m : Mastery) (target typed : List Char) (k : Char)
    (h : ∀ i, i < min target.length typed.length
        → isMasteryChar ((target.getD i ' ').toLower) = true
        → (target.getD i ' ').toLower ≠ k) :
    updateMastery m target typed k = m k := by
  unfold updateMastery
  have hmem : ∀ i ∈ List.range (min target.length typed.length),
      isMasteryChar ((target.getD i ' ').toLower) = true
        → (target.getD i ' ').toLower ≠ k :=
    fun i hi => h i (List.mem_range.mp hi)
  generalize hl : List.range (min target.length typed.length) = l at hmem
  clear hl
  induction l generalizing m with
  | nil => rfl
  | cons i l ih =>
    rw [List.foldl_cons]
    rw [ih _ (fun j hj => hmem j (List.mem_cons_of_mem i hj))]
    rw [masteryStep_apply]
    have := hmem i (List.mem_cons_self i l)
    by_cases hm1 : isMasteryChar ((target.getD i ' ').toLower)
    · rw [if_neg]
      intro hand
      exact this hm1 hand.2.symm
    · rw [if_neg]
      intro hand
      exact hm1 hand.1

/-- C10 witness: the binding of `'z'` survives an update over target
`"ab"`. -/
theorem updateMastery_frame_witness :
    (∀ i, i < min (['a', 'b'] : List Char).length (['x', 'y'] : List Char).length
        → isMasteryChar (((['a', 'b'] : List Char).getD i ' ').toLower) = true
        → ((['a', 'b'] : List Char).getD i ' ').toLower ≠ 'z')
    ∧ updateMastery (fun k => if k = 'z' then some 42 else none) ['a', 'b'] ['x', 'y'] 'z'
        = (fun k => if k = 'z' then some 42 else none : Mastery) 'z' :=
  ⟨by decide,
    updateMastery_frame (fun k => if k = 'z' then some 42 else none) ['a', 'b'] ['x', 'y'] 'z'
      (by decide)⟩

/-! ### Claim about the lesson-service fallback -/

/-- C6: whenever the lesson-generation call ends in a failure — transport
error, empty response, or parse error — the caller receives the
deterministic local fallback: the fixed apology as `tutorMessage`, the
previous passage verbatim as `lessonText`, no critical keys, and the
difficulty tier that was sent in the request. -/
theorem adaptive_fallback (lvl : DifficultyLevel) (mode : AppMode) (r : TypingResult)
    (target : List Char) (f : FetchFailure) :
    generateAdaptiveLesson lvl mode r target (Except.error f)
      = { tutorMessage := "Maaf, saya mengalami gangguan koneksi sebentar. Mari kita ulang latihan pola sebelumnya."
          lessonText := target
          criticalKeys := []
          nextLevel := lvl } := rfl

/-! ### Claims about the session lifecycle -/

/-- While unfinished, the start signal of an input event is exactly
`jsFalsy startTime && length val == 1`. -/
theorem handleInputChange_started (target val : List Char) (now : ℤ) (s : CanvasState)
    (hact : s.isFinished = false) :
    (handleInputChange target now s val).started
      = (jsFalsy s.startTime && val.length == 1) := by
  simp only [handleInputChange, hact, Bool.false_eq_true, if_false]
  split_ifs <;> rfl

/-- While unfinished, an input event sets the start timestamp to `now`
exactly when it fires the start signal, and keeps it otherwise. -/
theorem handleInputChange_startTime (target val : List Char) (now : ℤ) (s : CanvasState)
    (hact : s.isFinished = false) :
    (handleInputChange target now s val).state.startTime
      = (if jsFalsy s.startTime && val.length == 1 then some now else s.startTime) := by
  simp only [handleInputChange, hact, Bool.false_eq_true, if_false]
  split_ifs <;> rfl

/-- A truthy stored start timestamp never lets the start signal fire. -/
theorem started_false_of_truthy (target val : List Char) (now : ℤ) (s : CanvasState)
    (h : jsFalsy s.startTime = false) :
    (handleInputChange target now s val).started = false := by
  by_cases hf : s.isFinished
  · simp [handleInputChange, hf]
  · rw [handleInputChange_started target val now s (by simpa using hf), h]
    rfl

/-- C7: while the session is unfinished, an input event finishes it
exactly when the typed buffer reaches the target length; at that instant
the scorer runs on the buffer and its result is emitted; once finished,
every further input event returns the state unchanged and emits nothing;
at the application level the emitted result is appended to the history
and the mastery tracker runs on it; and loading a new lesson reopens the
canvas. -/
theorem active_to_finished (target val : List Char) (now : ℤ) (s : CanvasState)
    (hact : s.isFinished = false) :
    ((handleInputChange target now s val).state.isFinished = true
        ↔ target.length ≤ val.length)
    ∧ ((handleInputChange target now s val).emitted
        = if target.length ≤ val.length
          then some (finishSession target s.startTime now val)
          else none)
    ∧ (∀ s2 : CanvasState, s2.isFinished = true
        → handleInputChange target now s2 val = ⟨s2, none, false⟩)
    ∧ (∀ (st : AppState) (r : TypingResult),
        st.canvas = s → st.lessonText = target
        → (handleInputChange target now s val).emitted = some r
        → (stepApp st (Ev.input val now)).1.history = st.history ++ [r]
          ∧ (stepApp st (Ev.input val now)).1.keyMastery
              = updateMastery st.keyMastery target r.actualTypedText
          ∧ (stepApp st (Ev.input val now)).2 = some r)
    ∧ (∀ (st : AppState) (t2 : List Char),
        (stepApp st (Ev.load t2)).1.canvas.isFinished = false) := by
  refine ⟨?_, ?_, ?_, ?_, ?_⟩
  · simp only [handleInputChange, hact, Bool.false_eq_true, if_false]
    split_ifs with h <;> simp [h]
  · simp only [handleInputChange, hact, Bool.false_eq_true, if_false]
    split_ifs with h <;> rfl
  · intro s2 h2
    simp [handleInputChange, h2]
  · intro st r hc ht hr
    subst hc
    subst ht
    simp [stepApp, hr]
  · intro st t2
    rfl

/-- C7 witness: a two-character lesson finished by typing its second
character. -/
theorem active_to_finished_witness :
    ((⟨['f'], some 3, false⟩ : CanvasState).isFinished = false)
    ∧ (((handleInputChange ['f', 'j'] 7 ⟨['f'], some 3, false⟩ ['f', 'j']).state.isFinished = true
          ↔ (['f', 'j'] : List Char).length ≤ (['f', 'j'] : List Char).length)
      ∧ ((handleInputChange ['f', 'j'] 7 ⟨['f'], some 3, false⟩ ['f', 'j']).emitted
          = if (['f', 'j'] : List Char).length ≤ (['f', 'j'] : List Char).length
            then some (finishSession ['f', 'j'] (some 3) 7 ['f', 'j'])
            else none)
      ∧ (∀ s2 : CanvasState, s2.isFinished = true
          → handleInputChange ['f', 'j'] 7 s2 ['f', 'j'] = ⟨s2, none, false⟩)
      ∧ (∀ (st : AppState) (r : TypingResult),
          st.canvas = ⟨['f'], some 3, false⟩ → st.lessonText = ['f', 'j']
          → (handleInputChange ['f', 'j'] 7 ⟨['f'], some 3, false⟩ ['f', 'j']).emitted = some r
          → (stepApp st (Ev.input ['f', 'j'] 7)).1.history = st.history ++ [r]
            ∧ (stepApp st (Ev.input ['f', 'j'] 7)).1.keyMastery
                = updateMastery st.keyMastery ['f', 'j'] r.actualTypedText
            ∧ (stepApp st (Ev.input ['f', 'j'] 7)).2 = some r)
      ∧ (∀ (st : AppState) (t2 : List Char),
          (stepApp st (Ev.load t2)).1.canvas.isFinished = false)) :=
  ⟨rfl, active_to_finished ['f', 'j'] ['f', 'j'] 7 ⟨['f'], some 3, false⟩ rfl⟩

/-- Each application step extends the history by exactly its emitted
output. -/
theorem stepApp_history (st : AppState) (e : Ev) :
    (stepApp st e).1.history = st.history ++ (stepApp st e).2.toList := by
  cases e with
  | input val now =>
    cases hv : (handleInputChange st.lessonText now st.canvas val).emitted with
    | none => simp [stepApp, hv]
    | some r => simp [stepApp, hv]
  | reset => simp [stepApp]
  | load t => simp [stepApp]

/-- C8: a manual reset clears the typed buffer and the start timestamp,
emits nothing, and leaves the history and the mastery map untouched; and
over any interleaving of events, the history grows by exactly the
sequence of emitted session results — one per completion, never from a
reset. -/
theorem reset_and_history (st : AppState) (evs : List Ev) :
    ((stepApp st Ev.reset).1.history = st.history
      ∧ (stepApp st Ev.reset).1.keyMastery = st.keyMastery
      ∧ (stepApp st Ev.reset).1.canvas.input = []
      ∧ (stepApp st Ev.reset).1.canvas.startTime = none
      ∧ (stepApp st Ev.reset).2 = none)
    ∧ (runApp st evs).1.history = st.history ++ (runApp st evs).2 := by
  refine ⟨⟨rfl, rfl, rfl, rfl, rfl⟩, ?_⟩
  induction evs generalizing st with
  | nil => simp [runApp]
  | cons e es ih =>
    simp only [runApp]
    rw [ih, stepApp_history, List.append_assoc]

/-- C9: while the session is unfinished, the start transition fires
exactly on a one-character buffer with no (truthy) recorded start
timestamp; firing records `now` as the timestamp; a recorded non-zero
timestamp blocks refiring and is preserved; after firing with a positive
clock no later input of the same attempt fires again; a manual reset
clears the buffer and timestamp without finishing; and after the reset
the next single character fires the transition again. -/
theorem ready_to_active (target val : List Char) (now : ℤ) (s : CanvasState)
    (hact : s.isFinished = false) (hnow : 0 < now) :
    ((handleInputChange target now s val).started = true
        ↔ (jsFalsy s.startTime = true ∧ val.length = 1))
    ∧ ((handleInputChange target now s val).started = true
        → (handleInputChange target now s val).state.startTime = some now)
    ∧ (∀ t0 : ℤ, s.startTime = some t0 → t0 ≠ 0
        → (handleInputChange target now s val).started = false
          ∧ (handleInputChange target now s val).state.startTime = some t0)
    ∧ ((handleInputChange target now s val).started = true
        → ∀ (val2 : List Char) (now2 : ℤ),
            (handleInputChange target now2
              ((handleInputChange target now s val).state) val2).started = false)
    ∧ ((handleReset s).startTime = none ∧ (handleReset s).input = []
        ∧ (handleReset s).isFinished = false)
    ∧ (∀ c : Char, (handleInputChange target now (handleReset s) [c]).started = true) := by
  have hst := handleInputChange_started target val now s hact
  have hti := handleInputChange_startTime target val now s hact
  refine ⟨?_, ?_, ?_, ?_, ⟨rfl, rfl, hact⟩, ?_⟩
  · rw [hst]
    simp
  · intro h
    rw [hst] at h
    rw [hti, if_pos h]
  · intro t0 h0 hne
    rw [hst, hti, h0]
    have : jsFalsy (some t0) = false := by
      simp [jsFalsy, hne]
    rw [this]
    simp
  · intro h val2 now2
    apply started_false_of_truthy
    rw [hti]
    rw [hst] at h
    rw [if_pos h]
    simp [jsFalsy]
    omega
  · intro c
    rw [handleInputChange_started target [c] now (handleReset s) hact]
    rfl

/-- C9 witness: the first character typed into a fresh canvas at clock
`7`. -/
theorem ready_to_active_witness :
    ((⟨[], none, false⟩ : CanvasState).isFinished = false ∧ (0 : ℤ) < 7)
    ∧ (((handleInputChange ['f', 'j'] 7 ⟨[], none, false⟩ ['f']).started = true
          ↔ (jsFalsy none = true ∧ (['f'] : List Char).length = 1))
      ∧ ((handleInputChange ['f', 'j'] 7 ⟨[], none, false⟩ ['f']).started = true
          → (handleInputChange ['f', 'j'] 7 ⟨[], none, false⟩ ['f']).state.startTime = some 7)
      ∧ (∀ t0 : ℤ, (none : Option ℤ) = some t0 → t0 ≠ 0
          → (handleInputChange ['f', 'j'] 7 ⟨[], none, false⟩ ['f']).started = false
            ∧ (handleInputChange ['f', 'j'] 7 ⟨[], none, false⟩ ['f']).state.startTime = some t0)
      ∧ ((handleInputChange ['f', 'j'] 7 ⟨[], none, false⟩ ['f']).started = true
          → ∀ (val2 : List Char) (now2 : ℤ),
              (handleInputChange ['f', 'j'] now2
                ((handleInputChange ['f', 'j'] 7 ⟨[], none, false⟩ ['f']).state) val2).started
                = false)
      ∧ ((handleReset ⟨[], none, false⟩).startTime = none
          ∧ (handleReset ⟨[], none, false⟩).input = []
          ∧ (handleReset ⟨[], none, false⟩).isFinished = false)
      ∧ (∀ c : Char,
          (handleInputChange ['f', 'j'] 7 (handleReset ⟨[], none, false⟩) [c]).started
            = true)) :=
  ⟨⟨rfl, by decide⟩, ready_to_active ['f', 'j'] ['f'] 7 ⟨[], none, false⟩ rfl (by decide)⟩

end TypingTutor
